import Mathlib

/-!
Shallow embedding of the change-tracking and synchronization engine of the
repository: the UpdateManager file-state store (add, update, delete, rename,
commit, load), the rename tie-break, the greedy function-diff matching, and
the sync-response decoder of the push action.  External collaborators (the
file system, content hashing, Dart parsing, name casing, JSON parsing) are
passed in as explicit function parameters, so every definition stays
executable.
-/

namespace FFExt

/-- Category of a tracked file.  Modelled from the spec: the CodeType enum of
the fileUtils module (not part of the given sources) with the five categories
the given sources use, also written A, W, F, O, D in string comparisons. -/
inductive CodeType where
  | ACTION
  | WIDGET
  | FUNCTION
  | OTHER
  | DEPENDENCIES
deriving DecidableEq

/-- Metadata record of a tracked file (FileInfo in the source).  The two
checksums are optional: they are absent until first computed. -/
structure FileInfo where
  old_identifier_name : String
  new_identifier_name : String
  type : CodeType
  is_deleted : Bool
  original_checksum : Option String
  current_checksum : Option String
deriving DecidableEq

/-- The file map and the two index maps of the source are JS Map objects;
they are embedded as association lists in insertion order. -/
abbrev FileMap := List (String × FileInfo)

abbrev IndexMap := List (String × List String)

/-- Map.get of a JS Map: the value stored at the first matching key. -/
def mapLookup {α : Type} : List (String × α) → String → Option α
  | [], _ => none
  | (k0, v) :: rest, k => if k0 = k then some v else mapLookup rest k

/-- Map.set of a JS Map: replace in place when the key is present, append
otherwise. -/
def mapSet {α : Type} : List (String × α) → String → α → List (String × α)
  | [], k, v => [(k, v)]
  | (k0, v0) :: rest, k, v =>
      if k0 = k then (k, v) :: rest else (k0, v0) :: mapSet rest k v

/-- Map.delete of a JS Map: drop the entry with the given key. -/
def mapDelete {α : Type} : List (String × α) → String → List (String × α)
  | [], _ => []
  | (k0, v0) :: rest, k =>
      if k0 = k then mapDelete rest k else (k0, v0) :: mapDelete rest k

theorem mapLookup_mapSet {α : Type} (m : List (String × α)) (k k' : String) (v : α) :
    mapLookup (mapSet m k v) k' = if k = k' then some v else mapLookup m k' := by
  induction m with
  | nil => by_cases h : k = k' <;> simp [mapSet, mapLookup, h]
  | cons p rest ih =>
    obtain ⟨k0, v0⟩ := p
    by_cases h0 : k0 = k
    · subst h0
      by_cases h1 : k0 = k' <;> simp [mapSet, mapLookup, h1]
    · by_cases h1 : k0 = k'
      · subst h1
        have hkk : ¬ k = k0 := fun h => h0 h.symm
        simp [mapSet, mapLookup, h0, hkk]
      · simp [mapSet, mapLookup, h0, h1, ih]

theorem mapLookup_mapDelete {α : Type} (m : List (String × α)) (k k' : String) :
    mapLookup (mapDelete m k) k' = if k = k' then none else mapLookup m k' := by
  induction m with
  | nil => by_cases h : k = k' <;> simp [mapDelete, mapLookup, h]
  | cons p rest ih =>
    obtain ⟨k0, v0⟩ := p
    by_cases h0 : k0 = k
    · subst h0
      by_cases h1 : k0 = k'
      · subst h1
        simp [mapDelete, ih]
      · simp [mapDelete, mapLookup, ih, h1]
    · by_cases h1 : k0 = k'
      · subst h1
        have hkk : ¬ k = k0 := fun h => h0 h.symm
        simp [mapDelete, mapLookup, h0, hkk]
      · simp [mapDelete, mapLookup, h0, h1, ih]

/- Paths.  path.join of the source is embedded with the POSIX separator. -/

def actionIndexPath (root : String) : String :=
  root ++ "/lib/custom_code/actions/index.dart"

def widgetIndexPath (root : String) : String :=
  root ++ "/lib/custom_code/widgets/index.dart"

def functionsPath (root : String) : String :=
  root ++ "/lib/flutter_flow/custom_functions.dart"

/-- kCustomFunctionsSnapshotPath of the source, joined below the root. -/
def snapshotPath (root : String) : String :=
  root ++ "/lib/flutter_flow/custom_functions_snapshot.txt"

def fileMapPath (root : String) : String :=
  root ++ "/.vscode/file_map.json"

/-- fullPath of the source: the on-disk location of a tracked file, chosen by
its category.  The source has an unreachable empty-string fallback after the
five branches; the match is total here because CodeType has five cases. -/
def fullPath (rootPath filePath : String) (fileInfo : FileInfo) : String :=
  match fileInfo.type with
  | CodeType.ACTION => rootPath ++ "/lib/custom_code/actions/" ++ filePath
  | CodeType.WIDGET => rootPath ++ "/lib/custom_code/widgets/" ++ filePath
  | CodeType.FUNCTION => rootPath ++ "/lib/flutter_flow/" ++ filePath
  | CodeType.OTHER => rootPath ++ "/lib/custom_code/" ++ filePath
  | CodeType.DEPENDENCIES => rootPath ++ "/" ++ filePath

/-- In-memory state of an UpdateManager instance: the private fields of the
class. -/
structure UMState where
  fileMap : FileMap
  rootPath : String
  actionIndex : IndexMap
  widgetIndex : IndexMap
  functionsCode : String
  initialFunctionsCode : String
  paused : Bool
deriving DecidableEq

/-- Observable side effects of the UpdateManager operations: index-file
writes, file-map persistence, snapshot writes, event emission, boilerplate
insertion into a new file, and the no-exports console log. -/
inductive Effect where
  | savedActionIndex (entries : IndexMap)
  | savedWidgetIndex (entries : IndexMap)
  | wroteFileMap (entries : FileMap)
  | wroteFunctionsSnapshot (content : String)
  | emittedFileChange (path : String) (info : FileInfo)
  | insertedBoilerplate (baseName : String)
  | loggedNoExports (baseName : String)
deriving DecidableEq

/-- getNewName of the source (the rename tie-break).  JS undefined from an
out-of-range index access and from a failed find is embedded as none; the
strict JS equality between a string and possibly-undefined values is embedded
as equality of Option String values.  The two chained JS nullish-coalescing
operators become Option.or. -/
def getNewName (topLevelDeclarations indexExports : List String)
    (oldName : String) : Option String :=
  let inIndexExport := indexExports.head?
  let matchingDeclaration := topLevelDeclarations.find? (fun d => some d == inIndexExport)
  let oldDeclaration := topLevelDeclarations.find? (fun d => d == oldName)
  let inFileDeclaration := (matchingDeclaration.or oldDeclaration).or topLevelDeclarations.head?
  if inIndexExport = inFileDeclaration ∧ inIndexExport = some oldName then
    none
  else if inIndexExport = inFileDeclaration ∧ inIndexExport ≠ some oldName then
    inFileDeclaration
  else if inIndexExport = some oldName ∧ inFileDeclaration ≠ some oldName then
    inFileDeclaration
  else if inIndexExport ≠ inFileDeclaration ∧ inIndexExport ≠ some oldName then
    none
  else
    none

/-- The rename tie-break as the spec states it, written from the spec text
for comparison with getNewName: fileName is the declaration equal to the
first export entry if one exists, else the declaration equal to the
previously known name if one exists, else the first declaration; then the
four-row decision table over the first export entry. -/
def specNewName (decls : List String) (indexName previousName : String) :
    Option String :=
  let fileName : Option String :=
    if indexName ∈ decls then some indexName
    else if previousName ∈ decls then some previousName
    else decls.head?
  if fileName = some indexName ∧ indexName = previousName then none
  else if fileName = some indexName then fileName
  else if indexName = previousName ∧ fileName ≠ some previousName then fileName
  else none

theorem find?_beq_self (l : List String) (a : String) :
    l.find? (fun d => d == a) = if a ∈ l then some a else none := by
  induction l with
  | nil => simp
  | cons x xs ih =>
    by_cases h : x = a
    · subst h; simp [List.find?]
    · have hb : (x == a) = false := by simp [h]
      have h' : ¬ a = x := fun he => h he.symm
      simp [List.find?, hb, ih, List.mem_cons, h']

theorem head?_mem_of_eq (l : List String) (x : String) (h : l.head? = some x) :
    x ∈ l := by
  cases l with
  | nil => simp at h
  | cons y ys =>
    simp [List.head?] at h
    simp [h]

/-- C1.  For every list of top-level declaration names, every non-empty
recorded export list, and every previously known name, the rename tie-break
getNewName computes the file-side declaration exactly as the spec describes
and returns the outcome of the four-row decision table of the spec: no
rename when the first export equals both the file-side declaration and the
previous name, the file-side declaration when the first export matches only
one of them, and no rename in the ambiguous case. -/
theorem getNewName_truth_table (decls rest : List String) (ix old : String) :
    getNewName decls (ix :: rest) old = specNewName decls ix old := by
  have hfind : (decls.find? fun d => some d == some ix) = decls.find? fun d => d == ix := by
    rfl
  unfold getNewName specNewName
  simp only [List.head?_cons, hfind, find?_beq_self]
  by_cases hix : ix ∈ decls
  · -- a declaration matching the first export exists
    by_cases hio : ix = old
    · subst hio
      simp [hix, Option.or]
    · have h1 : ¬ (some ix = some old) := by simp [hio]
      simp [hix, hio, h1, Option.or]
  · by_cases hold : old ∈ decls
    · -- only the previously known name occurs among the declarations
      have hio : ¬ ix = old := fun h => hix (h ▸ hold)
      have h1 : ¬ (some ix = some old) := by simp [hio]
      have h2 : ¬ (some old = some ix) := by
        simp only [Option.some.injEq]
        exact fun h => hio h.symm
      simp [hix, hold, hio, h1, h2, Option.or]
    · -- neither name occurs among the declarations: the file-side
      -- declaration defaults to the head of the list
      cases hh : decls.head? with
      | none =>
        by_cases hio : ix = old
        · simp [hix, hold, hh, hio, Option.or]
        · have h1 : ¬ (some ix = some old) := by simp [hio]
          simp [hix, hold, hh, hio, h1, Option.or]
      | some x =>
        have hxmem : x ∈ decls := head?_mem_of_eq decls x hh
        have hxi : ¬ (some ix = some x) := by
          simp only [Option.some.injEq]
          exact fun h => hix (h ▸ hxmem)
        have hxi' : ¬ (some x = some ix) := by
          simp only [Option.some.injEq]
          exact fun h => hix (h ▸ hxmem)
        have hxo : ¬ (some x = some old) := by
          simp only [Option.some.injEq]
          exact fun h => hold (h ▸ hxmem)
        by_cases hio : ix = old
        · subst hio
          have hx1 : ¬ ix = x := fun h => hix (h ▸ hxmem)
          have hx2 : ¬ x = ix := fun h => hix (h ▸ hxmem)
          simp [hix, hh, hxi, hxi', hx1, hx2, Option.or]
        · have h1 : ¬ (some ix = some old) := by simp [hio]
          have hx1 : ¬ old = x := fun h => hold (h ▸ hxmem)
          have hx2 : ¬ x = old := fun h => hold (h ▸ hxmem)
          simp [hix, hold, hh, hio, h1, hxi, hxi', hxo, hx1, hx2, Option.or]

/-- The action-and-widget block of updateFile (source lines 225 to 246): the
index lookup, the rename tie-break, and the conditional index rewrite.  The
result is the record to store, the two index maps, and the effects. -/
def renameInferenceStep (st : UMState) (baseName : String) (codeType : CodeType)
    (topLevelDeclarations : List String) (fi2 : FileInfo) :
    FileInfo × IndexMap × IndexMap × List Effect :=
  if codeType = CodeType.ACTION ∨ codeType = CodeType.WIDGET then
    let indexMap := if codeType = CodeType.ACTION then st.actionIndex else st.widgetIndex
    let indexExports := (mapLookup indexMap baseName).getD []
    if indexExports = [] then
      (fi2, st.actionIndex, st.widgetIndex, [Effect.loggedNoExports baseName])
    else
      match getNewName topLevelDeclarations indexExports fi2.old_identifier_name with
      | none => (fi2, st.actionIndex, st.widgetIndex, [])
      | some newName =>
        let fi3 : FileInfo := { fi2 with new_identifier_name := newName }
        if indexExports.head? = some newName then
          (fi3, st.actionIndex, st.widgetIndex, [])
        else if codeType = CodeType.ACTION then
          let newIdx := mapSet st.actionIndex baseName [newName]
          (fi3, newIdx, st.widgetIndex, [Effect.savedActionIndex newIdx])
        else
          let newIdx := mapSet st.widgetIndex baseName [newName]
          (fi3, st.actionIndex, newIdx, [Effect.savedWidgetIndex newIdx])
  else
    (fi2, st.actionIndex, st.widgetIndex, [])

theorem renameInferenceStep_type (st : UMState) (baseName : String)
    (codeType : CodeType) (decls : List String) (fi2 : FileInfo) :
    (renameInferenceStep st baseName codeType decls fi2).1.type = fi2.type := by
  unfold renameInferenceStep
  dsimp only
  repeat' split
  all_goals rfl

/-- updateFile of the source.  Environment inputs that the method reads from
outside the instance are passed as arguments: the base name and category of
the event path, the freshly computed checksum of the file, its top-level
declaration names, and the content of the aggregate functions file.  The
result is the successor state, the emitted side effects in order, and the
returned value (none embeds the JS null return).  The checksum refresh of
the looked-up record is visible in the map even on the early return, because
the source mutates the record object that the map aliases. -/
def updateFile (st : UMState) (baseName : String) (codeType : CodeType)
    (newChecksum : String) (topLevelDeclarations : List String)
    (functionsFileContent : String) : UMState × List Effect × Option FileInfo :=
  if st.paused then (st, [], none) else
  match mapLookup st.fileMap baseName with
  | none => (st, [], none)
  | some fi0 =>
    let fi1 : FileInfo := { fi0 with current_checksum := some newChecksum }
    if fi1.current_checksum = fi1.original_checksum then
      ({ st with fileMap := mapSet st.fileMap baseName fi1 }, [], some fi1)
    else
      let fi2 : FileInfo := { fi1 with is_deleted := false }
      let step := renameInferenceStep st baseName codeType topLevelDeclarations fi2
      let newFunctionsCode :=
        if codeType = CodeType.FUNCTION then functionsFileContent else st.functionsCode
      let newFileMap := mapSet st.fileMap baseName step.1
      let st' : UMState :=
        { st with
            fileMap := newFileMap
            actionIndex := step.2.1
            widgetIndex := step.2.2.1
            functionsCode := newFunctionsCode }
      (st',
       step.2.2.2 ++ [Effect.wroteFileMap newFileMap,
         Effect.emittedFileChange (fullPath st.rootPath baseName step.1) step.1],
       some step.1)

/-- path.basename with a .dart extension argument, as the source uses it on a
base name. -/
def dropDartSuffix (s : String) : String :=
  if s.endsWith ".dart" then s.dropRight 5 else s

/-- The record-creation tail of addFile (after the existing-record check
fell through).  The name-casing helpers of the missing addBoilerplate module
are passed as functions. -/
def addFreshFile (toPascalCase toCamelCase : String → String) (st : UMState)
    (baseName relativePath : String) (codeType : CodeType)
    (boilerplateEffects : List Effect) : UMState × List Effect × Option FileInfo :=
  let impliedName :=
    if codeType = CodeType.WIDGET then toPascalCase (dropDartSuffix baseName)
    else toCamelCase (dropDartSuffix baseName)
  let fileInfo : FileInfo :=
    { old_identifier_name := impliedName, new_identifier_name := impliedName,
      type := codeType, is_deleted := false,
      original_checksum := none, current_checksum := none }
  let fm1 :=
    if codeType = CodeType.OTHER then mapSet st.fileMap relativePath fileInfo
    else mapSet st.fileMap baseName fileInfo
  let withIdx : UMState × List Effect :=
    if codeType = CodeType.ACTION then
      let newIdx := mapSet st.actionIndex baseName [impliedName]
      ({ st with fileMap := fm1, actionIndex := newIdx }, [Effect.savedActionIndex newIdx])
    else if codeType = CodeType.WIDGET then
      let newIdx := mapSet st.widgetIndex baseName [impliedName]
      ({ st with fileMap := fm1, widgetIndex := newIdx }, [Effect.savedWidgetIndex newIdx])
    else ({ st with fileMap := fm1 }, [])
  (withIdx.1,
   boilerplateEffects ++ withIdx.2 ++ [Effect.wroteFileMap fm1,
     Effect.emittedFileChange (fullPath st.rootPath baseName fileInfo) fileInfo],
   some fileInfo)

/-- addFile of the source.  fileIsEmpty tells whether the event file content
read back empty (which triggers the boilerplate insertion before anything
else); relativePath is the path below lib/custom_code that keys records of
the catch-all category. -/
def addFile (toPascalCase toCamelCase : String → String) (st : UMState)
    (baseName relativePath : String) (codeType : CodeType) (fileIsEmpty : Bool)
    (newChecksum : String) (topLevelDeclarations : List String)
    (functionsFileContent : String) : UMState × List Effect × Option FileInfo :=
  if st.paused then (st, [], none) else
  let boilerplateEffects : List Effect :=
    if fileIsEmpty then [Effect.insertedBoilerplate baseName] else []
  match mapLookup st.fileMap baseName with
  | some existingFileInfo =>
    if existingFileInfo.type = codeType then
      let u := updateFile st baseName codeType newChecksum topLevelDeclarations
        functionsFileContent
      (u.1, boilerplateEffects ++ u.2.1, u.2.2)
    else
      addFreshFile toPascalCase toCamelCase st baseName relativePath codeType
        boilerplateEffects
  | none =>
    addFreshFile toPascalCase toCamelCase st baseName relativePath codeType
      boilerplateEffects

/-- deleteFile of the source.  The fatal error thrown for the aggregate
function category is embedded in the third component; the state at the throw
point is returned unchanged, since the source throws before mutating
anything. -/
def deleteFile (st : UMState) (baseName : String) (codeType : CodeType) :
    UMState × List Effect × Except String (Option FileInfo) :=
  if st.paused then (st, [], Except.ok none) else
  if codeType = CodeType.FUNCTION then
    (st, [], Except.error "Cannot delete function file")
  else
    match mapLookup st.fileMap baseName with
    | none => (st, [], Except.ok none)
    | some fi0 =>
      let fi1 : FileInfo := { fi0 with is_deleted := true }
      let fm := mapSet st.fileMap baseName fi1
      let withIdx : UMState × List Effect :=
        if codeType = CodeType.ACTION then
          let newIdx := mapDelete st.actionIndex baseName
          ({ st with fileMap := fm, actionIndex := newIdx }, [Effect.savedActionIndex newIdx])
        else if codeType = CodeType.WIDGET then
          let newIdx := mapDelete st.widgetIndex baseName
          ({ st with fileMap := fm, widgetIndex := newIdx }, [Effect.savedWidgetIndex newIdx])
        else ({ st with fileMap := fm }, [])
      (withIdx.1,
       withIdx.2 ++ [Effect.wroteFileMap fm,
         Effect.emittedFileChange (fullPath st.rootPath baseName fi1) fi1],
       Except.ok (some fi1))

/-- renameFile of the source: move the record from the old base name to the
new one.  No checksum recompute, no index rewrite, no persistence, no
notification. -/
def renameFile (st : UMState) (oldBaseName newBaseName : String) :
    UMState × List Effect × Option FileInfo :=
  if st.paused then (st, [], none) else
  match mapLookup st.fileMap oldBaseName with
  | none => (st, [], none)
  | some fi =>
    ({ st with fileMap := mapDelete (mapSet st.fileMap newBaseName fi) oldBaseName },
     [], some fi)

/-- setToSynced of the source (the commit operation): rebase every record
checksum and identifier baseline, drop soft-deleted records, advance the
function baseline snapshot, persist the map and the snapshot. -/
def setToSynced (st : UMState) : UMState × List Effect :=
  let rebased := st.fileMap.map fun p =>
    (p.1, { p.2 with original_checksum := p.2.current_checksum,
                     old_identifier_name := p.2.new_identifier_name })
  let purged := rebased.filter fun p => !p.2.is_deleted
  ({ st with fileMap := purged, initialFunctionsCode := st.functionsCode },
   [Effect.wroteFileMap purged, Effect.wroteFunctionsSnapshot st.functionsCode])

/-- C3.  After commit (setToSynced) every surviving record has
originalChecksum equal to currentChecksum and oldIdentifierName equal to
newIdentifierName, no soft-deleted record remains, and the function baseline
snapshot equals the current function snapshot. -/
theorem setToSynced_commit (st : UMState) (k : String) (fi : FileInfo)
    (h : (k, fi) ∈ (setToSynced st).1.fileMap) :
    fi.original_checksum = fi.current_checksum ∧
    fi.old_identifier_name = fi.new_identifier_name ∧
    fi.is_deleted = false ∧
    (setToSynced st).1.initialFunctionsCode = (setToSynced st).1.functionsCode := by
  refine ⟨?_, ?_, ?_, rfl⟩ <;>
  · simp only [setToSynced, List.mem_filter, List.mem_map] at h
    obtain ⟨⟨p, hp, hpe⟩, hdel⟩ := h
    obtain ⟨hk, hfi⟩ := Prod.mk.injEq .. ▸ hpe
    subst hfi
    simp_all

/-- A concrete pre-commit state used by the C3 witness. -/
def sampleSyncState : UMState :=
  ⟨[("a.dart", ⟨"oldName", "newName", CodeType.ACTION, false, some "c1", some "c2"⟩)],
   "p", [], [], "fc", "old", false⟩

/-- The record the C3 witness expects to survive the commit. -/
def sampleSyncedInfo : FileInfo :=
  ⟨"newName", "newName", CodeType.ACTION, false, some "c2", some "c2"⟩

/-- Witness for C3 at a concrete committed state. -/
theorem setToSynced_commit_witness :
    ("a.dart", sampleSyncedInfo) ∈ (setToSynced sampleSyncState).1.fileMap ∧
    sampleSyncedInfo.original_checksum = sampleSyncedInfo.current_checksum := by
  constructor
  · decide
  · exact (setToSynced_commit sampleSyncState "a.dart" sampleSyncedInfo (by decide)).1

/-- C5.  For a tracked record with the paused flag clear, an Update event
first refreshes currentChecksum, and when the refreshed value equals
originalChecksum it returns at once: the only state change is the refreshed
checksum visible through the aliased record, no rename inference runs, the
index maps and the function snapshot are untouched, nothing is persisted and
no change notification is emitted. -/
theorem updateFile_unchanged_checksum (st : UMState) (baseName : String)
    (codeType : CodeType) (newChecksum : String) (decls : List String)
    (functionsFileContent : String) (fi : FileInfo)
    (hp : st.paused = false)
    (hl : mapLookup st.fileMap baseName = some fi)
    (hc : fi.original_checksum = some newChecksum) :
    updateFile st baseName codeType newChecksum decls functionsFileContent =
      ({ st with fileMap := mapSet st.fileMap baseName { fi with current_checksum := some newChecksum } },
       [], some { fi with current_checksum := some newChecksum }) := by
  unfold updateFile
  rw [hp, hl]
  simp [hc]

/-- A concrete state used by the C5 witness: the stored record carries the
fresh checksum as its original checksum, so the Update event is a no-change
event. -/
def sampleQuietState : UMState :=
  ⟨[("a.dart", ⟨"a", "a", CodeType.ACTION, false, some "ck", some "stale"⟩)],
   "p", [("a.dart", ["a"])], [], "fc", "fc", false⟩

/-- Witness for C5 at a concrete state. -/
theorem updateFile_unchanged_checksum_witness :
    updateFile sampleQuietState "a.dart" CodeType.ACTION "ck" ["b"] "newFc" =
      (⟨[("a.dart", ⟨"a", "a", CodeType.ACTION, false, some "ck", some "ck"⟩)],
        "p", [("a.dart", ["a"])], [], "fc", "fc", false⟩,
       [], some ⟨"a", "a", CodeType.ACTION, false, some "ck", some "ck"⟩) := by
  have h := updateFile_unchanged_checksum sampleQuietState "a.dart" CodeType.ACTION
    "ck" ["b"] "newFc" ⟨"a", "a", CodeType.ACTION, false, some "ck", some "stale"⟩
    rfl (by decide) rfl
  exact h.trans (by decide)

/-- C9.  While the paused flag is set, the three mutating entry points add,
update and delete are no-ops returning null: the state (file map, index
maps, snapshots) is unchanged, no effect is produced, and the suppressed
event is simply dropped. -/
theorem paused_ops_noop (toPascalCase toCamelCase : String → String)
    (st : UMState) (baseName relativePath : String) (codeType : CodeType)
    (fileIsEmpty : Bool) (newChecksum : String) (decls : List String)
    (functionsFileContent : String) (h : st.paused = true) :
    addFile toPascalCase toCamelCase st baseName relativePath codeType fileIsEmpty
        newChecksum decls functionsFileContent = (st, [], none) ∧
    updateFile st baseName codeType newChecksum decls functionsFileContent =
        (st, [], none) ∧
    deleteFile st baseName codeType = (st, [], Except.ok none) := by
  refine ⟨?_, ?_, ?_⟩ <;> simp [addFile, updateFile, deleteFile, h]

/-- A concrete paused state used by the C9 witness. -/
def samplePausedState : UMState := ⟨[], "p", [], [], "", "", true⟩

/-- Witness for C9 at a concrete paused state. -/
theorem paused_ops_noop_witness :
    addFile id id samplePausedState "a.dart" "a.dart" CodeType.ACTION false "ck" [] "" =
      (samplePausedState, [], none) := by
  exact (paused_ops_noop id id samplePausedState
    "a.dart" "a.dart" CodeType.ACTION false "ck" [] "" rfl).1

/-- C10.  deleteFile on a key with no record (of a non-function category)
and renameFile whose old key has no record both return null and leave the
state untouched: no index rewrite, no persistence, no notification. -/
theorem missing_record_noop (st : UMState) (baseName oldBaseName newBaseName : String)
    (codeType : CodeType) (hct : codeType ≠ CodeType.FUNCTION)
    (h1 : mapLookup st.fileMap baseName = none)
    (h2 : mapLookup st.fileMap oldBaseName = none) :
    deleteFile st baseName codeType = (st, [], Except.ok none) ∧
    renameFile st oldBaseName newBaseName = (st, [], none) := by
  cases hp : st.paused
  · constructor
    · simp [deleteFile, hp, hct, h1]
    · simp [renameFile, hp, h2]
  · constructor
    · simp [deleteFile, hp]
    · simp [renameFile, hp]

/-- A concrete state used by the C10 witness: it tracks only b.dart, so the
keys that the witness deletes and renames have no record. -/
def sampleOtherState : UMState :=
  ⟨[("b.dart", ⟨"b", "b", CodeType.WIDGET, false, none, none⟩)],
   "p", [], [("b.dart", ["B"])], "", "", false⟩

/-- Witness for C10 at a concrete state without the looked-up records. -/
theorem missing_record_noop_witness :
    deleteFile sampleOtherState "a.dart" CodeType.ACTION =
      (sampleOtherState, [], Except.ok none) := by
  exact (missing_record_noop sampleOtherState
    "a.dart" "missing.dart" "renamed.dart" CodeType.ACTION
    (by decide) (by decide) (by decide)).1

theorem mapLookup_mapSet_type (m : FileMap) (b k : String) (fi0 fiNew : FileInfo)
    (hl : mapLookup m b = some fi0) (ht : fiNew.type = fi0.type) :
    (mapLookup (mapSet m b fiNew) k).map FileInfo.type
      = (mapLookup m k).map FileInfo.type := by
  rw [mapLookup_mapSet]
  by_cases hk : b = k
  · subst hk; rw [if_pos rfl, hl]; simp [ht]
  · rw [if_neg hk]

/-- The pre-state of the C8 counterexample: foo.dart is tracked as a custom
action. -/
def crossAddState : UMState :=
  ⟨[("foo.dart", ⟨"foo", "foo", CodeType.ACTION, false, some "c", some "c"⟩)],
   "p", [("foo.dart", ["foo"])], [], "", "", false⟩

/-- C8 counterexample.  An Add event whose path classifies foo.dart under
the widget category, while a record of the action category already sits at
that key, replaces the record with a fresh widget record: the category
stored at the key changes after the record's creation, refuting per-key
category constancy over add sequences. -/
theorem addFile_changes_category_at_key :
    (mapLookup crossAddState.fileMap "foo.dart").map FileInfo.type
        = some CodeType.ACTION ∧
    (mapLookup (addFile id id crossAddState "foo.dart" "foo.dart" CodeType.WIDGET
        false "ck" [] "").1.fileMap "foo.dart").map FileInfo.type
        = some CodeType.WIDGET := by
  constructor
  · decide
  · decide

/-- C8 (amended).  Update and delete never change the category of any stored
record; rename onto an unoccupied key preserves the category of every record
still present; and an Add for a base name whose existing record has the same
category is exactly the corresponding Update (same resulting state and
returned record, with only the boilerplate effect prepended).  An Add over a
record of a different category replaces the record instead, see the
counterexample. -/
theorem category_stability (st : UMState)
    (baseName oldBaseName newBaseName relativePath : String)
    (codeType : CodeType) (newChecksum : String) (decls : List String)
    (functionsFileContent : String) (toPascalCase toCamelCase : String → String)
    (fileIsEmpty : Bool) (k : String) :
    ((mapLookup (updateFile st baseName codeType newChecksum decls
          functionsFileContent).1.fileMap k).map FileInfo.type
        = (mapLookup st.fileMap k).map FileInfo.type) ∧
    ((mapLookup (deleteFile st baseName codeType).1.fileMap k).map FileInfo.type
        = (mapLookup st.fileMap k).map FileInfo.type) ∧
    (∀ fi fi', mapLookup st.fileMap newBaseName = none →
       mapLookup st.fileMap k = some fi →
       mapLookup (renameFile st oldBaseName newBaseName).1.fileMap k = some fi' →
       fi'.type = fi.type) ∧
    (∀ fi, st.paused = false → mapLookup st.fileMap baseName = some fi →
       fi.type = codeType →
       addFile toPascalCase toCamelCase st baseName relativePath codeType fileIsEmpty
           newChecksum decls functionsFileContent =
         ((updateFile st baseName codeType newChecksum decls functionsFileContent).1,
          (if fileIsEmpty then [Effect.insertedBoilerplate baseName] else []) ++
            (updateFile st baseName codeType newChecksum decls functionsFileContent).2.1,
          (updateFile st baseName codeType newChecksum decls functionsFileContent).2.2)) := by
  refine ⟨?_, ?_, ?_, ?_⟩
  · -- Update preserves the category at every key
    unfold updateFile
    by_cases hp : st.paused = true
    · simp [hp]
    · simp only [Bool.not_eq_true] at hp
      cases hl : mapLookup st.fileMap baseName with
      | none => simp [hp, hl]
      | some fi0 =>
        simp only [hp, Bool.false_eq_true, if_false, hl]
        try dsimp only
        by_cases hc : (some newChecksum : Option String) = fi0.original_checksum
        · rw [if_pos hc]
          exact mapLookup_mapSet_type st.fileMap baseName k fi0 _ hl rfl
        · rw [if_neg hc]
          exact mapLookup_mapSet_type st.fileMap baseName k fi0 _ hl
            (renameInferenceStep_type st baseName codeType decls _)
  · -- Delete preserves the category at every key
    unfold deleteFile
    by_cases hp : st.paused = true
    · simp [hp]
    · simp only [Bool.not_eq_true] at hp
      by_cases hf : codeType = CodeType.FUNCTION
      · simp [hp, hf]
      · cases hl : mapLookup st.fileMap baseName with
        | none => simp [hp, hf, hl]
        | some fi0 =>
          simp only [hp, Bool.false_eq_true, if_false, hf, hl]
          try dsimp only
          split_ifs
          all_goals exact mapLookup_mapSet_type st.fileMap baseName k fi0 _ hl rfl
  · -- Rename onto an unoccupied key preserves categories
    intro fi fi' hfresh hk hk'
    unfold renameFile at hk'
    by_cases hp : st.paused = true
    · simp only [hp, if_true] at hk'
      rw [hk] at hk'
      injection hk' with h
      rw [h]
    · simp only [Bool.not_eq_true] at hp
      simp only [hp, Bool.false_eq_true, if_false] at hk'
      cases hlold : mapLookup st.fileMap oldBaseName with
      | none =>
        rw [hlold] at hk'
        dsimp only at hk'
        rw [hk] at hk'
        injection hk' with h
        rw [h]
      | some fiOld =>
        rw [hlold] at hk'
        dsimp only at hk'
        rw [mapLookup_mapDelete, mapLookup_mapSet] at hk'
        by_cases h1 : oldBaseName = k
        · simp [h1] at hk'
        · rw [if_neg h1] at hk'
          by_cases h2 : newBaseName = k
          · subst h2
            rw [hk] at hfresh
            cases hfresh
          · rw [if_neg h2, hk] at hk'
            injection hk' with h
            rw [h]
  · -- Add over a same-category record is the corresponding Update
    intro fi hp hl ht
    unfold addFile
    simp only [hp, Bool.false_eq_true, if_false, hl]
    try dsimp only
    rw [if_pos ht]

/-- Witness for the amended C8 at concrete inputs: an Update leaves the
category at every key unchanged, and an Add over a same-category record
coincides with the corresponding Update. -/
theorem category_stability_witness :
    ((mapLookup (updateFile sampleQuietState "a.dart" CodeType.ACTION "ck2" ["b"]
          "fc2").1.fileMap "a.dart").map FileInfo.type
        = (mapLookup sampleQuietState.fileMap "a.dart").map FileInfo.type) ∧
    addFile id id sampleQuietState "a.dart" "rel" CodeType.ACTION false "ck2" ["b"] "fc2" =
      ((updateFile sampleQuietState "a.dart" CodeType.ACTION "ck2" ["b"] "fc2").1,
       (if (false : Bool) then [Effect.insertedBoilerplate "a.dart"] else []) ++
         (updateFile sampleQuietState "a.dart" CodeType.ACTION "ck2" ["b"] "fc2").2.1,
       (updateFile sampleQuietState "a.dart" CodeType.ACTION "ck2" ["b"] "fc2").2.2) := by
  constructor
  · exact (category_stability sampleQuietState "a.dart" "x" "y" "rel" CodeType.ACTION
      "ck2" ["b"] "fc2" id id false "a.dart").1
  · exact (category_stability sampleQuietState "a.dart" "x" "y" "rel" CodeType.ACTION
      "ck2" ["b"] "fc2" id id false "a.dart").2.2.2
      ⟨"a", "a", CodeType.ACTION, false, some "ck", some "stale"⟩ rfl (by decide) rfl

/-- A parsed top-level function: the name and content fields of the parse
result that the missing dartParser module returns. -/
structure FunctionInfo where
  name : String
  content : String
deriving DecidableEq

/-- One entry of functions_to_rename in the source result object. -/
structure RenamedFunction where
  old_function_name : String
  new_function_name : String
  renamed_by_symbol : Bool
deriving DecidableEq

/-- The FunctionChange result object of the source. -/
structure FunctionChange where
  functions_to_rename : List RenamedFunction
  functions_to_delete : List String
  functions_to_add : List String
deriving DecidableEq

/-- The forEach maximum scan of the source functionChange (lines 285 to
292): the running pair of best score and its index, updated only on a
strictly larger non-null score, so the first index attaining the maximum
wins.  JS number scores are embedded as rationals. -/
def bestIndexAux : List (Option ℚ) → Nat → Option (ℚ × Nat) → Option (ℚ × Nat)
  | [], _, acc => acc
  | s :: rest, i, acc =>
    match s, acc with
    | none, _ => bestIndexAux rest (i + 1) acc
    | some v, none => bestIndexAux rest (i + 1) (some (v, i))
    | some v, some (m, j) =>
      if m < v then bestIndexAux rest (i + 1) (some (v, i))
      else bestIndexAux rest (i + 1) (some (m, j))

/-- maxSimilarityIndex of the source after the scan over the whole score
list. -/
def bestIndex (scores : List (Option ℚ)) : Option Nat :=
  (bestIndexAux scores 0 none).map (fun p => p.2)

/-- The greedy rename-matching loop of the source functionChange (lines 283
to 302): process each deleted function in order, score it against every
still-unmatched added function, take the best index if any, record the
rename and splice the matched candidate out of the pool. -/
def greedyRenames (sim : String → String → Option ℚ) :
    List FunctionInfo → List FunctionInfo →
    List RenamedFunction × List FunctionInfo
  | [], addedFunctions => ([], addedFunctions)
  | d :: rest, addedFunctions =>
    match bestIndex (addedFunctions.map (fun f => sim f.content d.content)) with
    | none => greedyRenames sim rest addedFunctions
    | some i =>
      let r : RenamedFunction :=
        ⟨d.name, (addedFunctions.getD i ⟨"", ""⟩).name, false⟩
      let p := greedyRenames sim rest (addedFunctions.eraseIdx i)
      (r :: p.1, p.2)

/-- functionChange of the source, over the parsed baseline and current
snapshots and the similarity scorer of the missing functionSimilarity
module.  The scorer is applied with the added content first, as in the
source; the deleted list is filtered again at the end by rename old names,
as in source line 304. -/
def functionChange (sim : String → String → Option ℚ)
    (intialFunctionInfo currentFunctionInfo : List FunctionInfo) :
    FunctionChange :=
  let currentNames := currentFunctionInfo.map FunctionInfo.name
  let initialNames := intialFunctionInfo.map FunctionInfo.name
  let deletedFunctions :=
    intialFunctionInfo.filter (fun f => !currentNames.contains f.name)
  let addedFunctions :=
    currentFunctionInfo.filter (fun f => !initialNames.contains f.name)
  let p := greedyRenames sim deletedFunctions addedFunctions
  let deletedAfter := deletedFunctions.filter
    (fun f => !p.1.any (fun rf => rf.old_function_name == f.name))
  ⟨p.1, deletedAfter.map FunctionInfo.name, p.2.map FunctionInfo.name⟩

/-- The candidate pick as the spec states it (section 4.4), written from the
spec text: the highest remaining score with ties broken by the first
encountered candidate. -/
def argmaxFirst : List (Option ℚ) → Option (ℚ × Nat)
  | [] => none
  | none :: rest => (argmaxFirst rest).map (fun p => (p.1, p.2 + 1))
  | some v :: rest =>
    match argmaxFirst rest with
    | none => some (v, 0)
    | some (w, k) => if v < w then some (w, k + 1) else some (v, 0)

/-- The greedy match as the spec states it, written from the spec text:
process the deleted entries in their natural order against a shared pool of
unmatched added entries; on a pick, record the rename and remove the
candidate from the pool and the deleted name from the deletion list;
leftovers become deletions and additions. -/
def specGreedy (sim : String → String → Option ℚ) :
    List FunctionInfo → List FunctionInfo →
    List RenamedFunction × List String × List String
  | [], pool => ([], [], pool.map FunctionInfo.name)
  | d :: rest, pool =>
    match argmaxFirst (pool.map (fun f => sim f.content d.content)) with
    | none =>
      let p := specGreedy sim rest pool
      (p.1, d.name :: p.2.1, p.2.2)
    | some q =>
      let p := specGreedy sim rest (pool.eraseIdx q.2)
      (⟨d.name, (pool.getD q.2 ⟨"", ""⟩).name, false⟩ :: p.1, p.2.1, p.2.2)

/-- The function diff as the spec states it. -/
def functionChangeSpec (sim : String → String → Option ℚ)
    (baseline current : List FunctionInfo) : FunctionChange :=
  let deleted0 := baseline.filter
    (fun f => !(current.map FunctionInfo.name).contains f.name)
  let added0 := current.filter
    (fun f => !(baseline.map FunctionInfo.name).contains f.name)
  let p := specGreedy sim deleted0 added0
  ⟨p.1, p.2.1, p.2.2⟩

theorem bestIndexAux_some (l : List (Option ℚ)) :
    ∀ (i : Nat) (m : ℚ) (j : Nat),
    bestIndexAux l i (some (m, j)) =
      match argmaxFirst l with
      | none => some (m, j)
      | some (w, k) => if m < w then some (w, k + i) else some (m, j) := by
  induction l with
  | nil => intro i m j; rfl
  | cons s rest ih =>
    intro i m j
    cases s with
    | none =>
      simp only [bestIndexAux, argmaxFirst]
      rw [ih]
      cases h : argmaxFirst rest with
      | none => simp
      | some q =>
        obtain ⟨w, k⟩ := q
        have harith : k + (i + 1) = k + 1 + i := by omega
        by_cases hm : m < w
        · simp [hm, harith]
        · simp [hm]
    | some v =>
      simp only [bestIndexAux, argmaxFirst]
      cases h : argmaxFirst rest with
      | none =>
        by_cases hm : m < v
        · rw [if_pos hm, ih, h]
          simp [hm]
        · rw [if_neg hm, ih, h]
          simp [hm]
      | some q =>
        obtain ⟨w, k⟩ := q
        by_cases hm : m < v
        · rw [if_pos hm, ih, h]
          by_cases hvw : v < w
          · have hmw : m < w := lt_trans hm hvw
            have harith : k + (i + 1) = k + 1 + i := by omega
            simp [hvw, hmw, harith]
          · simp [hvw, hm]
        · rw [if_neg hm, ih, h]
          by_cases hvw : v < w
          · have harith : k + (i + 1) = k + 1 + i := by omega
            by_cases hmw : m < w
            · simp [hvw, hmw, harith]
            · simp [hvw, hmw]
          · have hmw : ¬ m < w := fun hc =>
              hm (lt_of_lt_of_le hc (not_lt.mp hvw))
            simp [hvw, hm, hmw]

theorem bestIndexAux_none (l : List (Option ℚ)) :
    ∀ i : Nat, bestIndexAux l i none
      = (argmaxFirst l).map (fun p => (p.1, p.2 + i)) := by
  induction l with
  | nil => intro i; rfl
  | cons s rest ih =>
    intro i
    cases s with
    | none =>
      simp only [bestIndexAux, argmaxFirst]
      rw [ih]
      cases h : argmaxFirst rest with
      | none => simp
      | some q =>
        obtain ⟨w, k⟩ := q
        have harith : k + (i + 1) = k + 1 + i := by omega
        simp [harith]
    | some v =>
      simp only [bestIndexAux, argmaxFirst]
      rw [bestIndexAux_some]
      cases h : argmaxFirst rest with
      | none => simp
      | some q =>
        obtain ⟨w, k⟩ := q
        by_cases hvw : v < w
        · have harith : k + (i + 1) = k + 1 + i := by omega
          simp [hvw, harith]
        · simp [hvw]

theorem bestIndex_eq_argmaxFirst (scores : List (Option ℚ)) :
    bestIndex scores = (argmaxFirst scores).map (fun p => p.2) := by
  unfold bestIndex
  rw [bestIndexAux_none]
  cases argmaxFirst scores with
  | none => rfl
  | some q => simp

theorem greedyRenames_oldNames_sublist (sim : String → String → Option ℚ) :
    ∀ (del pool : List FunctionInfo),
      ((greedyRenames sim del pool).1.map
        (fun r => r.old_function_name)).Sublist (del.map FunctionInfo.name) := by
  intro del
  induction del with
  | nil => intro pool; simp [greedyRenames]
  | cons d rest ih =>
    intro pool
    simp only [greedyRenames]
    cases h : bestIndex (pool.map fun f => sim f.content d.content) with
    | none =>
      simp only [List.map_cons]
      exact (ih pool).trans (List.sublist_cons_self _ _)
    | some i =>
      simp only [List.map_cons]
      exact List.Sublist.cons₂ _ (ih (pool.eraseIdx i))

theorem specGreedy_eq (sim : String → String → Option ℚ) :
    ∀ (del pool : List FunctionInfo), (del.map FunctionInfo.name).Nodup →
    specGreedy sim del pool =
      ((greedyRenames sim del pool).1,
       (del.filter (fun f =>
         !(greedyRenames sim del pool).1.any
           (fun rf => rf.old_function_name == f.name))).map FunctionInfo.name,
       (greedyRenames sim del pool).2.map FunctionInfo.name) := by
  intro del
  induction del with
  | nil => intro pool _; simp [specGreedy, greedyRenames]
  | cons d rest ih =>
    intro pool hnd
    simp only [List.map_cons, List.nodup_cons] at hnd
    have hd : d.name ∉ rest.map FunctionInfo.name := hnd.1
    have hnd' : (rest.map FunctionInfo.name).Nodup := hnd.2
    simp only [specGreedy, greedyRenames, bestIndex_eq_argmaxFirst]
    cases h : argmaxFirst (pool.map fun f => sim f.content d.content) with
    | none =>
      simp only [Option.map_none']
      rw [ih pool hnd']
      have hany : (greedyRenames sim rest pool).1.any
          (fun rf => rf.old_function_name == d.name) = false := by
        rw [List.any_eq_false]
        intro rf hrf
        simp only [beq_iff_eq]
        intro he
        apply hd
        rw [← he]
        exact (greedyRenames_oldNames_sublist sim rest pool).subset
          (List.mem_map_of_mem _ hrf)
      simp [List.filter_cons, hany]
    | some q =>
      obtain ⟨w, i⟩ := q
      simp only [Option.map_some']
      rw [ih (pool.eraseIdx i) hnd']
      have hdEq : (d.name == d.name) = true := by simp
      simp only [List.filter_cons, List.any_cons, hdEq, Bool.true_or,
        Bool.not_true, if_false, Bool.false_eq_true]
      have hcong : (rest.filter (fun f =>
            !(d.name == f.name ||
              (greedyRenames sim rest (pool.eraseIdx i)).1.any
                (fun rf => rf.old_function_name == f.name))))
          = rest.filter (fun f =>
            !(greedyRenames sim rest (pool.eraseIdx i)).1.any
              (fun rf => rf.old_function_name == f.name)) := by
        apply List.filter_congr
        intro f hf
        have hne : (d.name == f.name) = false := by
          simp only [beq_eq_false_iff_ne, ne_eq]
          intro he
          apply hd
          rw [he]
          exact List.mem_map_of_mem _ hf
        rw [hne]
        simp
      rw [hcong]

/-- C2.  For snapshots without duplicate baseline names (the spec declares
duplicate names within one snapshot unsupported), functionChange performs
exactly the greedy, order-dependent match the spec describes: deleted
entries in original order, each picking the strictly highest remaining
non-null score with first-encountered tie-break, matched candidates removed
from the pool so no added function matches twice, leftovers becoming
deletions and additions. -/
theorem functionChange_matches_spec (sim : String → String → Option ℚ)
    (intialFunctionInfo currentFunctionInfo : List FunctionInfo)
    (hnd : (intialFunctionInfo.map FunctionInfo.name).Nodup) :
    functionChange sim intialFunctionInfo currentFunctionInfo =
      functionChangeSpec sim intialFunctionInfo currentFunctionInfo := by
  unfold functionChange functionChangeSpec
  dsimp only
  have hsub : ((intialFunctionInfo.filter
      (fun f => !(currentFunctionInfo.map FunctionInfo.name).contains f.name)).map
        FunctionInfo.name).Nodup :=
    List.Nodup.sublist ((List.filter_sublist _).map _) hnd
  rw [specGreedy_eq sim _ _ hsub]

/-- The similarity scorer of the spec scenario: the deleted A scores 0.9
against the added A2 and 0.95 against the added B2; the deleted B scores 0.5
against anything. -/
def sampleSim : String → String → Option ℚ := fun added deleted =>
  if deleted = "bodyA" ∧ added = "bodyA2" then some (9 / 10)
  else if deleted = "bodyA" ∧ added = "bodyB2" then some (95 / 100)
  else if deleted = "bodyB" then some (1 / 2)
  else none

def sampleBaseline : List FunctionInfo := [⟨"A", "bodyA"⟩, ⟨"B", "bodyB"⟩]

def sampleCurrent : List FunctionInfo := [⟨"A2", "bodyA2"⟩, ⟨"B2", "bodyB2"⟩]

/-- Witness for C2 at the greedy-determinism scenario of the spec. -/
theorem functionChange_matches_spec_witness :
    functionChange sampleSim sampleBaseline sampleCurrent =
      functionChangeSpec sampleSim sampleBaseline sampleCurrent :=
  functionChange_matches_spec sampleSim sampleBaseline sampleCurrent (by decide)

/-- The abstract file system: content by absolute path, none when the file
does not exist. -/
abbrev Disk := String → Option String

/-- fs.readFileSync and fs.promises.readFile: the content, or a thrown
ENOENT error when the file is missing. -/
def readFileE (disk : Disk) (p : String) : Except String String :=
  match disk p with
  | some content => Except.ok content
  | none => Except.error ("ENOENT: " ++ p)

/-- computeChecksum of the source: the digest of the file content.  The
sha256 hex digest itself is an external primitive and is passed in as the
hash function. -/
def computeChecksum (disk : Disk) (hash : String → String) (p : String) :
    Except String String :=
  (readFileE disk p).map hash

/-- JS truthiness of an optional string field: undefined and the empty
string are falsy. -/
def truthy : Option String → Bool
  | none => false
  | some s => !(s == "")

/-- The checksum-verification loop of deserializeUpdateManager (source lines
496 to 502): rehash the referenced file and fill both checksums for every
entry on which both checksum fields are falsy; leave every other entry
alone. -/
def backfillChecksums (disk : Disk) (hash : String → String)
    (projectPath : String) : FileMap → Except String FileMap
  | [] => Except.ok []
  | (k, fi) :: rest =>
    let entryE : Except String (String × FileInfo) :=
      if truthy fi.original_checksum = false ∧ truthy fi.current_checksum = false then
        (computeChecksum disk hash (fullPath projectPath k fi)).map
          (fun ck => (k, { fi with original_checksum := some ck,
                                   current_checksum := some ck }))
      else Except.ok (k, fi)
    match entryE with
    | Except.error e => Except.error e
    | Except.ok entry =>
      match backfillChecksums disk hash projectPath rest with
      | Except.error e => Except.error e
      | Except.ok rest' => Except.ok (entry :: rest')

/-- path.basename as the source applies it to an index-document key. -/
def baseNameOf (p : String) : String := (p.splitOn "/").getLastD p

/-- fileMapFromIndexFiles of the source: seed records from the two index
documents, then the aggregate functions record and the dependency record.
The source reads exports[0] of each entry; the JS undefined name of an
empty export list is embedded as the empty string. -/
def fileMapFromIndexFiles (actionIndex widgetIndex : IndexMap) : FileMap :=
  let withActions := actionIndex.foldl (fun m p =>
    mapSet m (baseNameOf p.1)
      ⟨p.2.head?.getD "", p.2.head?.getD "", CodeType.ACTION, false, none, none⟩) []
  let withWidgets := widgetIndex.foldl (fun m p =>
    mapSet m (baseNameOf p.1)
      ⟨p.2.head?.getD "", p.2.head?.getD "", CodeType.WIDGET, false, none, none⟩)
    withActions
  let withFunctions := mapSet withWidgets "custom_functions.dart"
    ⟨"CustomFunctions", "CustomFunctions", CodeType.FUNCTION, false, none, none⟩
  mapSet withFunctions "pubspec.yaml"
    ⟨"pubspec.yaml", "pubspec.yaml", CodeType.DEPENDENCIES, false, none, none⟩

/-- The per-entry checksum loop of computeFileMap (source lines 537 to 553):
every record gets both checksums from its category-specific path, which
coincides with fullPath for all five categories. -/
def checksumAll (disk : Disk) (hash : String → String) (root : String) :
    FileMap → Except String FileMap
  | [] => Except.ok []
  | (k, fi) :: rest =>
    match computeChecksum disk hash (fullPath root k fi) with
    | Except.error e => Except.error e
    | Except.ok ck =>
      match checksumAll disk hash root rest with
      | Except.error e => Except.error e
      | Except.ok rest' =>
        Except.ok ((k, { fi with current_checksum := some ck,
                                 original_checksum := some ck }) :: rest')

/-- The record computeFileMap creates for a catch-all dart file below
lib/custom_code. -/
def otherDefault (file : String) : FileInfo :=
  ⟨file, file, CodeType.OTHER, false, none, none⟩

/-- computeFileMap of the source.  The recursive directory listing, already
filtered by the source to dart files outside actions/ and widgets/, is an
environment input; the index parser of the missing dartParser module is
passed in. -/
def computeFileMap (disk : Disk) (parseIndex : String → IndexMap)
    (hash : String → String) (customCodeFiles : List String) (root : String) :
    Except String FileMap :=
  match readFileE disk (actionIndexPath root) with
  | Except.error e => Except.error e
  | Except.ok actionContent =>
    match readFileE disk (widgetIndexPath root) with
    | Except.error e => Except.error e
    | Except.ok widgetContent =>
      let m0 := fileMapFromIndexFiles (parseIndex actionContent) (parseIndex widgetContent)
      let m1 := customCodeFiles.foldl (fun m file => mapSet m file (otherDefault file)) m0
      checksumAll disk hash root m1

/-- The dependency record deserializeUpdateManager inserts when the loaded
file map lacks pubspec.yaml. -/
def pubspecDefault : FileInfo :=
  ⟨"pubspec.yaml", "pubspec.yaml", CodeType.DEPENDENCIES, false, none, none⟩

/-- deserializeUpdateManager of the source.  The readFileMap helper of the
missing fileParsing module is passed in as the parser of the persisted
.vscode/file_map.json document.  The outer try of the source logs and
rethrows, so the Except value is the net behaviour; the final writeFileMap
call is reported as an effect. -/
def deserializeUpdateManager (disk : Disk) (parseIndex : String → IndexMap)
    (readFileMapFn : String → FileMap) (hash : String → String)
    (customCodeFiles : List String) (projectPath : String) :
    Except String (UMState × List Effect) :=
  match readFileE disk (actionIndexPath projectPath) with
  | Except.error e => Except.error e
  | Except.ok actionIndexContent =>
    match readFileE disk (widgetIndexPath projectPath) with
    | Except.error e => Except.error e
    | Except.ok widgetIndexContent =>
      match readFileE disk (functionsPath projectPath) with
      | Except.error e => Except.error e
      | Except.ok functionsCode =>
        let initialFunctionsCode :=
          match disk (snapshotPath projectPath) with
          | some c => c
          | none => functionsCode
        let fileMap0E : Except String FileMap :=
          if (disk (fileMapPath projectPath)).isSome then
            let fm := readFileMapFn projectPath
            Except.ok (if mapLookup fm "pubspec.yaml" = none then
                mapSet fm "pubspec.yaml" pubspecDefault
              else fm)
          else
            computeFileMap disk parseIndex hash customCodeFiles projectPath
        match fileMap0E with
        | Except.error e => Except.error e
        | Except.ok fileMap0 =>
          match backfillChecksums disk hash projectPath fileMap0 with
          | Except.error e => Except.error e
          | Except.ok fileMap1 =>
            Except.ok
              (⟨fileMap1, projectPath, parseIndex actionIndexContent,
                parseIndex widgetIndexContent, functionsCode,
                initialFunctionsCode, false⟩,
               [Effect.wroteFileMap fileMap1])

/-- refresh of the source.  The two index reloads are individually guarded:
a failed read logs and leaves the freshly assigned empty map.  The file-map
recompute and the functions reload are not guarded, so their failures
reject the call after the index fields were already overwritten. -/
def refresh (disk : Disk) (parseIndex : String → IndexMap)
    (hash : String → String) (customCodeFiles : List String) (st : UMState) :
    UMState × Except String Unit :=
  let aIdx :=
    match readFileE disk (actionIndexPath st.rootPath) with
    | Except.ok c => parseIndex c
    | Except.error _ => []
  let wIdx :=
    match readFileE disk (widgetIndexPath st.rootPath) with
    | Except.ok c => parseIndex c
    | Except.error _ => []
  match computeFileMap disk parseIndex hash customCodeFiles st.rootPath with
  | Except.error e =>
    ({ st with actionIndex := aIdx, widgetIndex := wIdx }, Except.error e)
  | Except.ok fm =>
    match readFileE disk (functionsPath st.rootPath) with
    | Except.error e =>
      ({ st with actionIndex := aIdx, widgetIndex := wIdx, fileMap := fm },
       Except.error e)
    | Except.ok fc =>
      ({ st with
          actionIndex := aIdx
          widgetIndex := wIdx
          fileMap := fm
          functionsCode := fc
          initialFunctionsCode := fc },
       Except.ok ())

/-- C6 counterexample.  On a disk with no files at all, in particular no
index documents, loading raises the read error of the action index file
instead of completing with empty index mappings. -/
theorem deserialize_raises_on_missing_index :
    deserializeUpdateManager (fun _ => none) (fun _ => []) (fun _ => [])
        (fun _ => "") [] "p"
      = Except.error ("ENOENT: " ++ actionIndexPath "p") := by
  rfl

/-- C6 (amended).  When the index documents are missing on disk,
deserializeUpdateManager propagates the ENOENT error of the action index
read, and refresh leaves freshly emptied action and widget index maps
behind but rejects while recomputing the file map: neither load path
completes without raising. -/
theorem missing_index_load_raises (disk : Disk) (parseIndex : String → IndexMap)
    (readFileMapFn : String → FileMap) (hash : String → String)
    (customCodeFiles : List String) (projectPath : String) (st : UMState)
    (ha : disk (actionIndexPath projectPath) = none)
    (ha' : disk (actionIndexPath st.rootPath) = none)
    (hw' : disk (widgetIndexPath st.rootPath) = none) :
    deserializeUpdateManager disk parseIndex readFileMapFn hash customCodeFiles
        projectPath
      = Except.error ("ENOENT: " ++ actionIndexPath projectPath) ∧
    (refresh disk parseIndex hash customCodeFiles st).1.actionIndex = [] ∧
    (refresh disk parseIndex hash customCodeFiles st).1.widgetIndex = [] ∧
    (refresh disk parseIndex hash customCodeFiles st).2
      = Except.error ("ENOENT: " ++ actionIndexPath st.rootPath) := by
  refine ⟨?_, ?_, ?_, ?_⟩
  · simp [deserializeUpdateManager, readFileE, ha]
  · simp [refresh, computeFileMap, readFileE, ha', hw']
  · simp [refresh, computeFileMap, readFileE, ha', hw']
  · simp [refresh, computeFileMap, readFileE, ha', hw']

/-- A concrete state for the C6 witness whose project root has an empty
disk. -/
def emptyDiskState : UMState :=
  ⟨[], "q", [("old.dart", ["x"])], [("w.dart", ["Y"])], "f", "f", false⟩

/-- Witness for the amended C6 at a concrete empty disk. -/
theorem missing_index_load_raises_witness :
    (refresh (fun _ => none) (fun _ => []) (fun _ => "") [] emptyDiskState).1.actionIndex
        = [] ∧
    (refresh (fun _ => none) (fun _ => []) (fun _ => "") [] emptyDiskState).2
        = Except.error ("ENOENT: " ++ actionIndexPath "q") := by
  have h := missing_index_load_raises (fun _ => none) (fun _ => []) (fun _ => [])
    (fun _ => "") [] "p" emptyDiskState rfl rfl rfl
  exact ⟨h.2.1, h.2.2.2⟩

/-- A record with only the original checksum present, as a loaded file-map
document may contain. -/
def partialInfo : FileInfo := ⟨"a", "a", CodeType.ACTION, false, some "aa", none⟩

/-- The disk of the C7 counterexample: the three files the load reads
exist, the persisted file map exists, the functions snapshot does not, and
pubspec.yaml exists for the backfill of the inserted dependency record. -/
def diskC7 : Disk := fun p =>
  if p = "p/lib/custom_code/actions/index.dart" then some ""
  else if p = "p/lib/custom_code/widgets/index.dart" then some ""
  else if p = "p/lib/flutter_flow/custom_functions.dart" then some "fns"
  else if p = "p/.vscode/file_map.json" then some "mapdoc"
  else if p = "p/pubspec.yaml" then some "yamltext"
  else none

/-- C7 counterexample.  Loading a file map whose a.dart entry carries an
original checksum but no current checksum succeeds and leaves that entry
without a current checksum: the load does not backfill an entry that has
one checksum present. -/
theorem deserialize_keeps_partial_checksums :
    (deserializeUpdateManager diskC7 (fun _ => []) (fun _ => [("a.dart", partialInfo)])
        (fun s => "H" ++ s) [] "p").toOption.map
      (fun r => (mapLookup r.1.fileMap "a.dart").map FileInfo.current_checksum)
      = some (some none) := by
  rfl

/-- C7 (amended).  The load-time checksum verification backfills an entry,
rehashing the referenced file into both checksum fields, only when both
checksums are missing (absent or empty); an entry with at least one truthy
checksum is loaded unchanged and may still lack the other checksum. -/
theorem backfill_only_when_both_missing (disk : Disk) (hash : String → String)
    (projectPath : String) :
    ∀ (m m' : FileMap),
      backfillChecksums disk hash projectPath m = Except.ok m' →
    ∀ (k : String) (fi : FileInfo), (k, fi) ∈ m →
      ((truthy fi.original_checksum = false ∧ truthy fi.current_checksum = false) →
        ∃ ck, computeChecksum disk hash (fullPath projectPath k fi) = Except.ok ck ∧
          (k, { fi with original_checksum := some ck,
                        current_checksum := some ck }) ∈ m') ∧
      ((truthy fi.original_checksum = true ∨ truthy fi.current_checksum = true) →
        (k, fi) ∈ m') := by
  intro m
  induction m with
  | nil =>
    intro m' h k fi hm
    cases hm
  | cons p rest ih =>
    obtain ⟨k0, fi0⟩ := p
    intro m' h k fi hm
    simp only [backfillChecksums] at h
    by_cases hcond : truthy fi0.original_checksum = false ∧ truthy fi0.current_checksum = false
    · rw [if_pos hcond] at h
      cases hck : computeChecksum disk hash (fullPath projectPath k0 fi0) with
      | error e =>
        rw [hck] at h
        simp [Except.map] at h
      | ok ck =>
        rw [hck] at h
        simp only [Except.map] at h
        cases hrest : backfillChecksums disk hash projectPath rest with
        | error e => rw [hrest] at h; cases h
        | ok rest' =>
          rw [hrest] at h
          injection h with h'
          subst h'
          rcases List.mem_cons.mp hm with hhead | htail
          · rw [Prod.mk.injEq] at hhead
            obtain ⟨hk, hfi⟩ := hhead
            subst hk
            subst hfi
            constructor
            · intro _
              exact ⟨ck, hck, List.mem_cons_self _ _⟩
            · intro habs
              rcases habs with h1 | h1
              · rw [hcond.1] at h1; cases h1
              · rw [hcond.2] at h1; cases h1
          · have hr := ih rest' hrest k fi htail
            constructor
            · intro hc
              obtain ⟨ck2, hck2, hmem⟩ := hr.1 hc
              exact ⟨ck2, hck2, List.mem_cons_of_mem _ hmem⟩
            · intro ht
              exact List.mem_cons_of_mem _ (hr.2 ht)
    · rw [if_neg hcond] at h
      cases hrest : backfillChecksums disk hash projectPath rest with
      | error e => rw [hrest] at h; cases h
      | ok rest' =>
        rw [hrest] at h
        injection h with h'
        subst h'
        rcases List.mem_cons.mp hm with hhead | htail
        · rw [Prod.mk.injEq] at hhead
          obtain ⟨hk, hfi⟩ := hhead
          subst hk
          subst hfi
          constructor
          · intro hc
            exact absurd hc hcond
          · intro _
            exact List.mem_cons_self _ _
        · have hr := ih rest' hrest k fi htail
          constructor
          · intro hc
            obtain ⟨ck2, hck2, hmem⟩ := hr.1 hc
            exact ⟨ck2, hck2, List.mem_cons_of_mem _ hmem⟩
          · intro ht
            exact List.mem_cons_of_mem _ (hr.2 ht)

/-- The backfilled dependency record of the C7 witness. -/
def pubspecFilled : FileInfo :=
  ⟨"pubspec.yaml", "pubspec.yaml", CodeType.DEPENDENCIES, false,
   some "Hyamltext", some "Hyamltext"⟩

/-- Witness for the amended C7 on a concrete two-entry map: the entry
missing both checksums is backfilled, the entry with an original checksum
survives unchanged. -/
theorem backfill_only_when_both_missing_witness :
    (∃ ck, computeChecksum diskC7 (fun s => "H" ++ s)
        (fullPath "p" "pubspec.yaml" pubspecDefault) = Except.ok ck ∧
      ("pubspec.yaml", { pubspecDefault with original_checksum := some ck,
                                             current_checksum := some ck }) ∈
        [("a.dart", partialInfo), ("pubspec.yaml", pubspecFilled)]) ∧
    ("a.dart", partialInfo) ∈
      [("a.dart", partialInfo), ("pubspec.yaml", pubspecFilled)] := by
  have h := backfill_only_when_both_missing diskC7 (fun s => "H" ++ s) "p"
    [("a.dart", partialInfo), ("pubspec.yaml", pubspecDefault)]
    [("a.dart", partialInfo), ("pubspec.yaml", pubspecFilled)] (by rfl)
  exact ⟨(h "pubspec.yaml" pubspecDefault (by decide)).1 (by decide),
         (h "a.dart" partialInfo (by decide)).2 (Or.inl (by decide))⟩

/-- Structured JSON-like data for the sync response body.  JSON numbers are
restricted to integers in this embedding; the response decoder never
inspects numbers. -/
inductive Json where
  | null
  | bool (b : Bool)
  | num (n : Int)
  | str (s : String)
  | arr (elems : List Json)
  | obj (fields : List (String × Json))

/-- Object.entries of JS on a parsed JSON value: fields of an object,
indexed elements of an array, indexed characters of a string, the empty
list for booleans and numbers, and a thrown TypeError for null. -/
def objEntriesE : Json → Except String (List (String × Json))
  | Json.null => Except.error "TypeError: cannot convert null to object"
  | Json.bool _ => Except.ok []
  | Json.num _ => Except.ok []
  | Json.str s =>
    Except.ok (s.toList.enum.map (fun p => (toString p.1, Json.str (toString p.2))))
  | Json.arr elems =>
    Except.ok (elems.enum.map (fun p => (toString p.1, p.2)))
  | Json.obj fields => Except.ok fields

/-- JS property access on a parsed JSON value: a field of an object,
undefined otherwise.  (On null JS throws instead; the decoder below turns
the none into an error as well.) -/
def getProp : Json → String → Option Json
  | Json.obj fields, k => mapLookup fields k
  | _, _ => none

/-- A sync response as the decoder observes it: the ok flag of the status
and the body text (response.json() is the abstract parser applied to the
body, response.text() is the body itself). -/
structure SyncResponse where
  ok : Bool
  bodyText : String

/-- parseSyncCodeResponse of the source.  The platform JSON parser is
passed in as a function; a parse returning none embeds the thrown
SyntaxError of JSON.parse.  On the success path the source calls
JSON.parse(jsonResult.value); the embedding covers the case where the value
field holds a string (the wire contract) and maps the JS coercion corners
of a non-string argument to a thrown error. -/
def parseSyncCodeResponse (jsonParse : String → Option Json)
    (response : SyncResponse) : Except String (List (String × Json)) :=
  match jsonParse response.bodyText with
  | none => Except.error response.bodyText
  | some jsonResult =>
    if response.ok = false then
      objEntriesE jsonResult
    else
      match getProp jsonResult "value" with
      | some (Json.str s) =>
        match jsonParse s with
        | some valueObject => objEntriesE valueObject
        | none => Except.error ("SyntaxError: unexpected token in " ++ s)
      | _ => Except.error "TypeError: JSON.parse argument is not a string"

/-- C4.  parseSyncCodeResponse fails with the raw body text when the body
does not parse; on a non-success status it returns the entire parsed body
as the filename-to-warnings mapping; on success it decodes the single value
field, itself an encoded document, and returns that as the mapping — both
successful paths producing the same output shape. -/
theorem parseSyncCodeResponse_contract (jsonParse : String → Option Json)
    (response : SyncResponse) :
    (jsonParse response.bodyText = none →
      parseSyncCodeResponse jsonParse response = Except.error response.bodyText) ∧
    (∀ fields, jsonParse response.bodyText = some (Json.obj fields) →
      response.ok = false →
      parseSyncCodeResponse jsonParse response = Except.ok fields) ∧
    (∀ j s fields, jsonParse response.bodyText = some j → response.ok = true →
      getProp j "value" = some (Json.str s) →
      jsonParse s = some (Json.obj fields) →
      parseSyncCodeResponse jsonParse response = Except.ok fields) := by
  refine ⟨?_, ?_, ?_⟩
  · intro h
    simp [parseSyncCodeResponse, h]
  · intro fields h hok
    simp [parseSyncCodeResponse, h, hok, objEntriesE]
  · intro j s fields h hok hv hs
    simp [parseSyncCodeResponse, h, hok, hv, hs, objEntriesE]

/-- The abstract JSON parser of the C4 witness, defined on the bodies the
witness uses. -/
def sampleParse : String → Option Json := fun s =>
  if s = "body-direct" then
    some (Json.obj [("foo.dart", Json.arr [Json.obj [("message", Json.str "bad")]])])
  else if s = "body-envelope" then some (Json.obj [("value", Json.str "inner")])
  else if s = "inner" then some (Json.obj [("foo.dart", Json.arr [])])
  else none

/-- Witness for C4 on the two scenarios of the spec plus the unparseable
body: a non-success body that is directly the mapping with one warning, and
a success envelope whose value field encodes a mapping with an empty
warning list. -/
theorem parseSyncCodeResponse_contract_witness :
    parseSyncCodeResponse sampleParse ⟨false, "body-bad"⟩
        = Except.error "body-bad" ∧
    parseSyncCodeResponse sampleParse ⟨false, "body-direct"⟩
        = Except.ok [("foo.dart", Json.arr [Json.obj [("message", Json.str "bad")]])] ∧
    parseSyncCodeResponse sampleParse ⟨true, "body-envelope"⟩
        = Except.ok [("foo.dart", Json.arr [])] := by
  refine ⟨?_, ?_, ?_⟩
  · exact (parseSyncCodeResponse_contract sampleParse ⟨false, "body-bad"⟩).1 rfl
  · exact (parseSyncCodeResponse_contract sampleParse ⟨false, "body-direct"⟩).2.1
      _ rfl rfl
  · exact (parseSyncCodeResponse_contract sampleParse ⟨true, "body-envelope"⟩).2.2
      (Json.obj [("value", Json.str "inner")]) "inner" _ rfl rfl rfl rfl

end FFExt
